import Mathlib

/-!
# Verification of the `entropy` file organizer (`main.go`)

A shallow embedding of the classification-and-dispatch pipeline of the
`entropy` watcher: the ignore filter (`isIgnored`), the rule matcher
(`matchRules`), the suggestion worker's per-job behaviour
(`suggestFolderWithGenAI`'s loop body), the dispatcher's destination
resolution (the tail of `main`'s event loop), the mover (`organizeItem`)
and the configuration loader (`loadConfig`).

Go standard-library functions the code calls (`strings.HasPrefix`,
`strings.Contains`, `strings.ToLower`, `strings.TrimSpace`,
`filepath.Base`, `filepath.Ext`, `filepath.Join`) are embedded as
executable Lean functions below, restricted to ASCII where Go consults
Unicode tables.  The external regular-expression engine (`regexp`) and
the GenAI service are abstracted as oracle parameters: the repository's
code only sequences their results.
-/

namespace Entropy

/-! ## Go standard-library string functions -/

/-- The white-space predicate of Go's `strings.TrimSpace`
(`unicode.IsSpace`), restricted to the ASCII range actually produced by
the pipeline's strings. -/
def isSpaceChar (c : Char) : Bool :=
  c = ' ' || c = '\t' || c = '\n' || c = '\x0b' || c = '\x0c' || c = '\r'

/-- Strip leading characters satisfying `p`. -/
def trimLeftChars (p : Char → Bool) (l : List Char) : List Char :=
  l.dropWhile p

/-- Strip trailing characters satisfying `p`. -/
def trimRightChars (p : Char → Bool) (l : List Char) : List Char :=
  (l.reverse.dropWhile p).reverse

/-- Embedding of Go `strings.TrimSpace`: remove leading and trailing
white space. -/
def trimSpace (s : String) : String :=
  String.mk (trimRightChars isSpaceChar (trimLeftChars isSpaceChar s.toList))

/-- Embedding of Go `strings.ToLower` on one character (ASCII range):
a code point in `'A'..'Z'` (65–90) is shifted by 32, anything else is
returned unchanged. -/
def lowerChar (c : Char) : Char :=
  if 65 ≤ c.toNat && c.toNat ≤ 90 then Char.ofNat (c.toNat + 32) else c

/-- Embedding of Go `strings.ToLower` (ASCII range). -/
def lowerStr (s : String) : String :=
  String.mk (s.toList.map lowerChar)

/-- Boolean list-prefix test (Go `strings.HasPrefix` on character
lists). -/
def startsWith : List Char → List Char → Bool
  | [], _ => true
  | _ :: _, [] => false
  | a :: pr, b :: l => a = b && startsWith pr l

/-- Embedding of Go `strings.HasPrefix pre s`. -/
def hasPre (pre s : String) : Bool :=
  startsWith pre.toList s.toList

/-- Does the second list have `needle` as a contiguous sublist?  Scans
every suffix. -/
def containsAux (needle : List Char) : List Char → Bool
  | [] => startsWith needle []
  | c :: rest => startsWith needle (c :: rest) || containsAux needle rest

/-- Embedding of Go `strings.Contains s sub`. -/
def containsStr (s sub : String) : Bool :=
  containsAux sub.toList s.toList

/-- Embedding of Go `filepath.Base`: strip trailing slashes, then keep
the part after the last slash; `""` gives `"."`, an all-slash path gives
`"/"`. -/
def baseName (path : String) : String :=
  if path = "" then "."
  else
    let stripped := (path.toList.reverse.dropWhile (· = '/')).reverse
    let last := (stripped.reverse.takeWhile (· ≠ '/')).reverse
    if last = [] then "/" else String.mk last

/-- Helper for `filepath.Ext`: walk the path from the end (first list
argument is the reversed path); stop at a slash with `""`, or at a dot
with the suffix from that dot. -/
def extAux : List Char → List Char → String
  | [], _ => ""
  | c :: rest, acc =>
    if c = '/' then ""
    else if c = '.' then String.mk (c :: acc)
    else extAux rest (c :: acc)

/-- Embedding of Go `filepath.Ext`: the suffix of the last path element
starting at its final dot, `""` when there is no dot. -/
def extName (path : String) : String :=
  extAux path.toList.reverse []

/-- Embedding of Go `filepath.Join` on two elements, for the plain
relative names this pipeline joins (`Clean`'s `..`/`.`-normalisation is
not exercised by them). -/
def joinPath (a b : String) : String :=
  if a = "" then b else if b = "" then a else a ++ "/" ++ b

/-! ## Configuration data model (`main.go` type declarations) -/

/-- Go `type Rule struct { Pattern, Target string }`. -/
structure Rule where
  pattern : String
  target : String
deriving DecidableEq, Repr

/-- Go `type IgnoreConfig struct { OSDefaults bool; Files, Extensions,
Folders []string }`. -/
structure IgnoreConfig where
  osDefaults : Bool
  files : List String
  extensions : List String
  folders : List String
deriving DecidableEq, Repr

/-- Go `type Options struct { PreserveStructure bool; KnowledgeBase
string }`. -/
structure Options where
  preserveStructure : Bool
  knowledgeBase : String
deriving DecidableEq, Repr

/-- Go `type GptConfig struct { Enabled bool; ApiKey, Model,
Instructions string }`. -/
structure GptConfig where
  enabled : Bool
  apiKey : String
  model : String
  instructions : String
deriving DecidableEq, Repr

/-- Go `type Config struct { Options; Ignore; Rules; Gpt }`. -/
structure Config where
  options : Options
  ignore : IgnoreConfig
  rules : List Rule
  gpt : GptConfig
deriving DecidableEq, Repr

/-! ## `isIgnored` -/

/-- Embedding of `isIgnored(path, cfg)`: hidden-file marker `._` on the
base name, OS-default names, exact names, case-insensitive extensions,
then path substrings, in the source's order (each criterion returns
`true` immediately). -/
def isIgnored (path : String) (cfg : IgnoreConfig) : Bool :=
  let base := baseName path
  if hasPre "._" base then true
  else if cfg.osDefaults && [".DS_Store", "Thumbs.db", "desktop.ini"].contains base then
    true
  else if cfg.files.contains base then true
  else
    let ext := lowerStr (extName base)
    if cfg.extensions.any (fun ignExt => lowerStr ignExt = ext) then true
    else cfg.folders.any (fun folder => containsStr path folder)

/-! ## `matchRules`

The Go code compiles each rule's pattern with `regexp.MustCompile`
inside the loop, on every call.  The external `regexp` engine is
abstracted by two oracles: `compile` (`regexp.Compile`; `none` is the
error that makes `MustCompile` panic, embedded as `Except.error` carrying
the offending pattern) and `matchStr` (`(*Regexp).MatchString`, Go's
unanchored containment search). -/

/-- Embedding of `matchRules(filename, rules)`: for each rule in order,
compile its pattern (`MustCompile`: a failure aborts the call), and
return the first matching rule's target; `""` when no rule matches. -/
def matchRules {γ : Type} (compile : String → Option γ)
    (matchStr : γ → String → Bool) (filename : String) :
    List Rule → Except String String
  | [] => .ok ""
  | rule :: rest =>
    match compile rule.pattern with
    | none => .error rule.pattern
    | some re =>
      if matchStr re filename then .ok rule.target
      else matchRules compile matchStr filename rest

/-- The per-rule match test `matchRules` applies: the rule's freshly
compiled pattern matched against the filename (an uncompilable pattern
matches nothing — but `matchRules` panics before using this). -/
def ruleMatches {γ : Type} (compile : String → Option γ)
    (matchStr : γ → String → Bool) (filename : String) (rule : Rule) : Bool :=
  match compile rule.pattern with
  | none => false
  | some re => matchStr re filename

/-! ## `loadConfig`

`loadConfig(path)` reads the file (`os.ReadFile`, fatal on error) and
unmarshals it (`yaml.Unmarshal`, fatal on error), and returns the
config unchanged.  File reading and YAML parsing are external; they are
passed as the already-produced `readResult` and the `parse` oracle.
`log.Fatalf` is embedded as `Except.error`.  Note the function inspects
no rule pattern. -/

/-- Embedding of `loadConfig`: fail on an unreadable file, fail on
invalid YAML, otherwise return the parsed config as-is. -/
def loadConfig (readResult : Option String) (parse : String → Option Config) :
    Except String Config :=
  match readResult with
  | none => .error "couldn't open file"
  | some data =>
    match parse data with
    | none => .error "Invalid YAML"
    | some config => .ok config

/-! ## The suggestion worker (`suggestFolderWithGenAI` loop body)

Per job the worker: waits on the rate limiter (on error it sends
`"Unsorted"` and moves on); calls `getFolderStructure("entropy")`
unconditionally; builds the prompt; calls the GenAI service (on error it
sends `"Unsorted"`); trims the response and sends `"Unsorted"` if the
trimmed text is empty, the trimmed text otherwise.  The limiter outcome
and the service response are oracles; a channel send `job.resultCh <- x`
is recorded by appending `x` to the returned write list. -/

/-- The record of one pass of the worker loop over a job: whether
`getFolderStructure` was invoked, and the prompt that was assembled. -/
structure SuggestStep where
  snapshotComputed : Bool
  prompt : String
deriving DecidableEq, Repr

/-- Embedding of the prompt-building section of the worker loop body:
`getFolderStructure("entropy")` is called unconditionally (recorded by
`snapshotComputed := true`, with its result passed in as `snapshot`),
and the `fmt.Sprintf` template interpolates instructions, knowledge
base, base filename, metadata, the snapshot, and the
`preserve`-dependent constraint line. -/
def workerBuildStep (instructions knowledge filename metadata snapshot : String)
    (preserve : Bool) : SuggestStep :=
  { snapshotComputed := true
    prompt :=
      instructions ++ "\n\nKnowledge base:\n" ++ knowledge ++
      "\n\nFilename: " ++ baseName filename ++
      "\nMetadata: " ++ metadata ++
      "\nExisting folder structure: " ++ snapshot ++
      "\n\nConstraints:\n- Respond only with a folder path.\n- " ++
      (if preserve then "Do not suggest new folders. Only pick from existing ones."
       else "You may suggest new folders if appropriate.") }

/-- Embedding of the result-channel traffic of one worker-loop pass:
the list of values sent to `job.resultCh`, in order.  `limiterOk` is
whether `limiter.Wait(ctx)` returned without error; `resp` is the
outcome of `client.Models.GenerateContent` (`.error` for a service
error, `.ok` carrying `resp.Text()`). -/
def workerJobWrites (limiterOk : Bool) (resp : Except String String) :
    List String :=
  if !limiterOk then ["Unsorted"]
  else
    match resp with
    | .error _ => ["Unsorted"]
    | .ok raw =>
      let text := trimSpace raw
      if text = "" then ["Unsorted"] else [text]

/-! ## Dispatcher destination resolution (tail of `main`'s event loop)

After the ignore check, `main` runs: `targetFolder := matchRules(name,
rules)`; if it is `""` and GPT is enabled, a job is enqueued and its
single reply awaited (`suggestion` here); if still `""`, it becomes
`"Unsorted"`; finally `strings.TrimSpace` is applied and the result is
handed to `organizeItem`. -/

/-- Embedding of the destination-resolution sequence of `main`:
`matched` is `matchRules`' result, `suggestion` the worker's reply (read
only when `matched = "" && gptEnabled`). -/
def resolveTarget (gptEnabled : Bool) (suggestion : String) (matched : String) :
    String :=
  let afterSuggest := if matched = "" && gptEnabled then suggestion else matched
  let afterFallback := if afterSuggest = "" then "Unsorted" else afterSuggest
  trimSpace afterFallback

/-! ## The mover (`organizeItem`)

The filesystem is embedded as the lists of existing directories and
files; `os.MkdirAll` inserts the directory, `os.Rename` moves a file
when the source exists (when it does not, the rename fails and the code
logs and returns, leaving the state unchanged). -/

/-- The filesystem state the mover touches. -/
structure FS where
  dirs : List String
  files : List String
deriving DecidableEq, Repr

/-- Embedding of `os.MkdirAll` (idempotent directory creation). -/
def mkdirAll (fs : FS) (d : String) : FS :=
  { fs with dirs := if fs.dirs.contains d then fs.dirs else d :: fs.dirs }

/-- Embedding of `os.Rename src dst` for a file: when `src` exists it is
removed and `dst` (over)written; when `src` is missing the rename
errors, which `organizeItem` only logs — state unchanged. -/
def renameFile (fs : FS) (src dst : String) : FS :=
  if fs.files.contains src then
    { fs with files := dst :: (fs.files.erase src).erase dst }
  else fs

/-- Embedding of `organizeItem(srcPath, targetFolder, preserve)`:
`destDir := filepath.Join("entropy", targetFolder)`; with `preserve`
set, a missing `destDir` skips the move entirely (`os.Stat` +
`os.IsNotExist`); otherwise `MkdirAll` then `Rename` into
`destDir/base`. -/
def organizeItem (fs : FS) (srcPath targetFolder : String) (preserve : Bool) :
    FS :=
  let base := baseName srcPath
  let destDir := joinPath "entropy" targetFolder
  if preserve then
    if fs.dirs.contains destDir then
      renameFile fs srcPath (joinPath destDir base)
    else fs
  else
    let fs' := mkdirAll fs destDir
    renameFile fs' srcPath (joinPath destDir base)

/-! ## Helper lemmas -/

/-- Dropping a trailing run leaves an initial segment of the list. -/
theorem trimRightChars_exists_append (p : Char → Bool) (l : List Char) :
    ∃ u, trimRightChars p l ++ u = l := by
  refine ⟨(l.reverse.takeWhile p).reverse, ?_⟩
  calc trimRightChars p l ++ (l.reverse.takeWhile p).reverse
      = (l.reverse.dropWhile p).reverse ++ (l.reverse.takeWhile p).reverse := rfl
    _ = (l.reverse.takeWhile p ++ l.reverse.dropWhile p).reverse := by
        rw [List.reverse_append]
    _ = l.reverse.reverse := by rw [List.takeWhile_append_dropWhile]
    _ = l := l.reverse_reverse

/-- If a list is already left-trimmed, so is every initial segment of
it. -/
theorem dropWhile_eq_self_of_append (p : Char → Bool) {a u : List Char}
    (h : List.dropWhile p (a ++ u) = a ++ u) : List.dropWhile p a = a := by
  cases a with
  | nil => rfl
  | cons c t =>
    rw [List.cons_append] at h
    by_cases hpc : p c
    · exfalso
      rw [List.dropWhile_cons_of_pos hpc] at h
      have hs : List.dropWhile p (t ++ u) <:+ t ++ u := List.dropWhile_suffix p
      have hlen := hs.length_le
      rw [h] at hlen
      simp at hlen
    · rw [List.dropWhile_cons_of_neg hpc]

/-- Right-trimming preserves being left-trimmed. -/
theorem dropWhile_trimRightChars (p : Char → Bool) (l : List Char) :
    List.dropWhile p (trimRightChars p (List.dropWhile p l)) =
      trimRightChars p (List.dropWhile p l) := by
  obtain ⟨u, hu⟩ := trimRightChars_exists_append p (List.dropWhile p l)
  refine dropWhile_eq_self_of_append p (u := u) ?_
  rw [hu]
  exact List.dropWhile_idempotent p l

/-- Right-trimming is idempotent. -/
theorem trimRightChars_idem (p : Char → Bool) (l : List Char) :
    trimRightChars p (trimRightChars p l) = trimRightChars p l := by
  unfold trimRightChars
  rw [List.reverse_reverse, List.dropWhile_idempotent]

/-- Go's `strings.TrimSpace` is idempotent. -/
theorem trimSpace_idem (s : String) : trimSpace (trimSpace s) = trimSpace s := by
  show String.mk
      (trimRightChars isSpaceChar (trimLeftChars isSpaceChar
        (trimRightChars isSpaceChar (trimLeftChars isSpaceChar s.toList)))) =
    String.mk (trimRightChars isSpaceChar (trimLeftChars isSpaceChar s.toList))
  unfold trimLeftChars
  rw [dropWhile_trimRightChars, trimRightChars_idem]

/-- Evaluating `Char.ofNat` at a valid code point. -/
theorem toNat_ofNat_valid {n : Nat} (h : n.isValidChar) :
    (Char.ofNat n).toNat = n := by
  unfold Char.ofNat
  rw [dif_pos h]
  rfl

/-- Lower-casing never produces a dot from a non-dot character. -/
theorem lowerChar_ne_dot {c : Char} (h : c ≠ '.') : lowerChar c ≠ '.' := by
  unfold lowerChar
  split
  · rename_i hrange
    have hr : 65 ≤ c.toNat ∧ c.toNat ≤ 90 := by
      constructor
      · exact of_decide_eq_true (Bool.and_eq_true_iff.mp hrange).1
      · exact of_decide_eq_true (Bool.and_eq_true_iff.mp hrange).2
    intro heq
    have hv : (c.toNat + 32).isValidChar := Or.inl (by omega)
    have := congrArg Char.toNat heq
    rw [toNat_ofNat_valid hv] at this
    have hdot : ('.' : Char).toNat = 46 := by decide
    omega
  · exact h

/-- The dot character is fixed by lower-casing. -/
theorem lowerChar_dot : lowerChar '.' = '.' := by decide

/-- The result of `extAux` is empty or starts with a dot. -/
theorem extAux_shape (l : List Char) :
    ∀ acc, extAux l acc = "" ∨ ∃ cs, extAux l acc = String.mk ('.' :: cs) := by
  induction l with
  | nil => intro acc; exact Or.inl rfl
  | cons c rest ih =>
    intro acc
    unfold extAux
    by_cases h1 : c = '/'
    · rw [if_pos h1]; exact Or.inl rfl
    · rw [if_neg h1]
      by_cases h2 : c = '.'
      · rw [if_pos h2]; exact Or.inr ⟨acc, by rw [h2]⟩
      · rw [if_neg h2]; exact ih (c :: acc)

/-- Go `filepath.Ext` returns the empty string or a string starting
with a dot. -/
theorem extName_shape (path : String) :
    extName path = "" ∨ ∃ cs, extName path = String.mk ('.' :: cs) :=
  extAux_shape path.toList.reverse []

/-! ## Claim theorems -/

/-- C1: for every filename and list of rules (all of whose patterns
compile), `matchRules` returns the target of the first rule, in list
order, whose pattern matches the filename under the engine's
(unanchored) `MatchString` test, and the no-match value `""` when no
rule's pattern matches. -/
theorem matchRules_first_match {γ : Type} (compile : String → Option γ)
    (matchStr : γ → String → Bool) (filename : String) (rules : List Rule)
    (hc : ∀ r ∈ rules, (compile r.pattern).isSome) :
    matchRules compile matchStr filename rules =
      .ok (((rules.find? (ruleMatches compile matchStr filename)).map
        Rule.target).getD "") := by
  induction rules with
  | nil => rfl
  | cons r rest ih =>
    obtain ⟨re, hre⟩ :=
      Option.isSome_iff_exists.mp (hc r (List.mem_cons_self r rest))
    unfold matchRules
    rw [hre]
    dsimp only
    by_cases hm : matchStr re filename = true
    · have hpr : ruleMatches compile matchStr filename r = true := by
        unfold ruleMatches; rw [hre]; exact hm
      rw [if_pos hm, List.find?_cons_of_pos rest hpr]
      rfl
    · have hpr : ¬ ruleMatches compile matchStr filename r = true := by
        unfold ruleMatches; rw [hre]; exact hm
      rw [if_neg hm, List.find?_cons_of_neg rest hpr]
      exact ih fun r' hr' => hc r' (List.mem_cons_of_mem r hr')

/-- Witness for C1: with a substring-literal engine, the file
`project_invoice_2024.pdf` is routed by the first matching rule. -/
theorem matchRules_first_match_witness :
    matchRules (fun p => (some p : Option String))
      (fun pat s => containsStr s pat) "project_invoice_2024.pdf"
      [⟨"invoice", "Documents/Finance/Invoices"⟩,
       ⟨"resume", "Documents/Resumes"⟩] = .ok "Documents/Finance/Invoices" := by
  have h := matchRules_first_match (fun p => (some p : Option String))
    (fun pat s => containsStr s pat) "project_invoice_2024.pdf"
    [⟨"invoice", "Documents/Finance/Invoices"⟩, ⟨"resume", "Documents/Resumes"⟩]
    (fun r _ => rfl)
  rw [h]
  rfl

/-- C3: per suggestion job (after a successful limiter wait), a service
error resolves to `"Unsorted"`, an empty-or-whitespace-only response
text resolves to `"Unsorted"`, and any other response resolves to the
response text with surrounding whitespace trimmed. -/
theorem workerResolve_spec :
    (∀ msg, workerJobWrites true (Except.error msg) = ["Unsorted"]) ∧
    (∀ raw, trimSpace raw = "" →
      workerJobWrites true (Except.ok raw) = ["Unsorted"]) ∧
    (∀ raw, trimSpace raw ≠ "" →
      workerJobWrites true (Except.ok raw) = [trimSpace raw]) := by
  refine ⟨fun msg => rfl, fun raw h => ?_, fun raw h => ?_⟩
  · simp [workerJobWrites, h]
  · simp [workerJobWrites, h]

/-- Witness for C3: a service error, a whitespace-only response, and a
padded response, each resolved as claimed. -/
theorem workerResolve_spec_witness :
    workerJobWrites true (Except.error "boom") = ["Unsorted"] ∧
    workerJobWrites true (Except.ok "  \t ") = ["Unsorted"] ∧
    workerJobWrites true (Except.ok "  Work/Reports  ") = [trimSpace "  Work/Reports  "] :=
  ⟨workerResolve_spec.1 "boom",
   workerResolve_spec.2.1 "  \t " (by decide),
   workerResolve_spec.2.2 "  Work/Reports  " (by decide)⟩

/-- C7: every worker-loop pass over a job sends exactly one value to
the job's result slot, on each of the four paths (limiter failure,
service error, blank response, success). -/
theorem workerJobWrites_single (limiterOk : Bool) (resp : Except String String) :
    (workerJobWrites limiterOk resp).length = 1 := by
  cases limiterOk with
  | false => rfl
  | true =>
    cases resp with
    | error msg => rfl
    | ok raw => by_cases h : trimSpace raw = "" <;> simp [workerJobWrites, h]

/-- C6: with `preserve` set and the destination subfolder absent under
the watched root, `organizeItem` changes nothing: no directory is
created, no move happens, the source file stays put. -/
theorem organizeItem_preserve_skips (fs : FS) (srcPath targetFolder : String)
    (h : fs.dirs.contains (joinPath "entropy" targetFolder) = false) :
    organizeItem fs srcPath targetFolder true = fs := by
  simp only [organizeItem]
  rw [h]
  rfl

/-- Witness for C6: destination `Invoices` absent, the filesystem state
is returned unchanged. -/
theorem organizeItem_preserve_skips_witness :
    organizeItem ⟨["entropy"], ["entropy/inv.pdf"]⟩ "entropy/inv.pdf"
      "Invoices" true = ⟨["entropy"], ["entropy/inv.pdf"]⟩ :=
  organizeItem_preserve_skips _ _ _ (by decide)

/-- C8: any path whose base filename begins with the hidden-file marker
`._` is ignored, whatever the other spec fields hold. -/
theorem isIgnored_hidden_marker (path : String) (cfg : IgnoreConfig)
    (h : hasPre "._" (baseName path) = true) : isIgnored path cfg = true := by
  simp [isIgnored, h]

/-- Witness for C8: `._cache` is ignored even with unrelated non-empty
spec fields. -/
theorem isIgnored_hidden_marker_witness :
    isIgnored "entropy/._cache" ⟨true, ["x.txt"], [".log"], ["tmp"]⟩ = true :=
  isIgnored_hidden_marker _ _ (by decide)

/-- C9: a path whose lower-cased extension equals the lower-casing of
some entry of the spec's extensions list is ignored. -/
theorem isIgnored_extension (path : String) (cfg : IgnoreConfig)
    (h : (cfg.extensions.any fun ignExt =>
        lowerStr ignExt = lowerStr (extName (baseName path))) = true) :
    isIgnored path cfg = true := by
  simp [isIgnored, h]

/-- Witness for C9: with `extensions = [".log"]`, the file `a.LOG` is
ignored. -/
theorem isIgnored_extension_witness :
    isIgnored "entropy/a.LOG" ⟨false, [], [".log"], []⟩ = true :=
  isIgnored_extension "entropy/a.LOG" ⟨false, [], [".log"], []⟩ (by decide)

/-- C2: in `main`'s resolution sequence, a no-match with suggestions
disabled falls back to `"Unsorted"`; any resolution producing the empty
string falls back to `"Unsorted"`; the destination handed to the mover
is always trimmed; and, end to end, a file matching no rule with
suggestions disabled lands under `entropy/Unsorted`. -/
theorem resolveTarget_spec :
    (∀ s, resolveTarget false s "" = "Unsorted") ∧
    (∀ e s m, (if m = "" && e then s else m) = "" →
      resolveTarget e s m = "Unsorted") ∧
    (∀ e s m, trimSpace (resolveTarget e s m) = resolveTarget e s m) ∧
    (∀ (fs : FS) (src s : String), fs.files.contains src = true →
      ((organizeItem fs src (resolveTarget false s "") false).files.contains
        (joinPath (joinPath "entropy" "Unsorted") (baseName src))) = true) := by
  have h1 : ∀ s, resolveTarget false s "" = "Unsorted" := fun s => rfl
  refine ⟨h1, fun e s m h => ?_, fun e s m => ?_, fun fs src s h => ?_⟩
  · simp only [resolveTarget]
    rw [h]
    rfl
  · simp only [resolveTarget]
    exact trimSpace_idem _
  · rw [h1 s]
    simp only [organizeItem, mkdirAll, renameFile]
    rw [h]
    simp

/-- Witness for C2: each conjunct at a concrete input; in particular
`notes.xyz`, matching no rule with suggestions disabled, ends up at
`entropy/Unsorted/notes.xyz`. -/
theorem resolveTarget_spec_witness :
    resolveTarget false "x" "" = "Unsorted" ∧
    resolveTarget true "" "" = "Unsorted" ∧
    trimSpace (resolveTarget true "  Work/Reports  " "") =
      resolveTarget true "  Work/Reports  " "" ∧
    ((organizeItem ⟨["entropy"], ["entropy/notes.xyz"]⟩ "entropy/notes.xyz"
      (resolveTarget false "" "") false).files.contains
        "entropy/Unsorted/notes.xyz") = true := by
  refine ⟨resolveTarget_spec.1 "x",
    resolveTarget_spec.2.1 true "" "" (by decide),
    resolveTarget_spec.2.2.1 true "  Work/Reports  " "", ?_⟩
  exact resolveTarget_spec.2.2.2 ⟨["entropy"], ["entropy/notes.xyz"]⟩
    "entropy/notes.xyz" "" (by decide)

/-- Counterexample for C4: a config whose rule list carries the invalid
pattern `"("` (rejected by `regexp.Compile`) loads successfully —
`loadConfig` inspects no pattern — while the very first `matchRules`
call on it aborts with the pattern's compilation failure
(`MustCompile`'s panic), i.e. the failure is per-event, not at load. -/
theorem matchRules_invalid_pattern_panics :
    matchRules (fun p => if p = "(" then none else (some p : Option String))
      (fun pat s => containsStr s pat) "report.txt" [⟨"(", "Broken"⟩] =
      .error "(" ∧
    loadConfig (some "rules-yaml-text")
      (fun _ => some ⟨⟨false, ""⟩, ⟨false, [], [], []⟩, [⟨"(", "Broken"⟩],
        ⟨false, "", "", ""⟩⟩) =
      .ok ⟨⟨false, ""⟩, ⟨false, [], [], []⟩, [⟨"(", "Broken"⟩],
        ⟨false, "", "", ""⟩⟩ :=
  ⟨rfl, rfl⟩

/-- C4 amended: patterns are compiled inside `matchRules` on every
call, so a malformed pattern at the head of the rule list aborts the
match (per event) with that pattern, while `loadConfig` performs no
pattern validation: whatever the rule patterns, a config the parser
accepts is returned as-is. -/
theorem matchRules_compiles_at_match_time {γ : Type}
    (compile : String → Option γ) (matchStr : γ → String → Bool)
    (filename : String) (r : Rule) (rs : List Rule)
    (h : compile r.pattern = none) :
    matchRules compile matchStr filename (r :: rs) = .error r.pattern ∧
    ∀ (data : String) (parse : String → Option Config) (cfg : Config),
      parse data = some cfg → loadConfig (some data) parse = .ok cfg := by
  constructor
  · unfold matchRules
    rw [h]
  · intro data parse cfg hp
    unfold loadConfig
    dsimp only
    rw [hp]

/-- Witness for C4's amended statement at concrete inputs. -/
theorem matchRules_compiles_at_match_time_witness :
    matchRules (fun p => if p = "(" then none else (some p : Option String))
      (fun pat s => containsStr s pat) "a.txt" [⟨"(", "X"⟩, ⟨"a", "A"⟩] =
      .error "(" ∧
    loadConfig (some "d")
      (fun _ => some ⟨⟨true, "kb"⟩, ⟨true, [], [], []⟩, [⟨"(", "X"⟩],
        ⟨true, "key", "model", "instr"⟩⟩) =
      .ok ⟨⟨true, "kb"⟩, ⟨true, [], [], []⟩, [⟨"(", "X"⟩],
        ⟨true, "key", "model", "instr"⟩⟩ := by
  have h := matchRules_compiles_at_match_time
    (fun p => if p = "(" then none else (some p : Option String))
    (fun pat s => containsStr s pat) "a.txt" ⟨"(", "X"⟩ [⟨"a", "A"⟩] (by decide)
  exact ⟨h.1, h.2 "d" _ _ rfl⟩

/-- Counterexample for C5: with `preserve = false` the worker still
computes the folder snapshot (`getFolderStructure("entropy")` is called
unconditionally) and the prompt contains the snapshot text. -/
theorem workerPrompt_snapshot_not_gated :
    (workerBuildStep "INSTR" "KB" "entropy/f.txt" "META" "SNAPMARKER"
      false).snapshotComputed = true ∧
    containsStr (workerBuildStep "INSTR" "KB" "entropy/f.txt" "META"
      "SNAPMARKER" false).prompt "SNAPMARKER" = true :=
  ⟨rfl, by decide⟩

/-- C5 amended: the worker computes the folder snapshot of the watched
root on every job and splices it into the prompt regardless of
`preserveStructure`; the flag only selects the final constraint line. -/
theorem workerBuildStep_always_snapshot
    (instructions knowledge filename metadata snapshot : String)
    (preserve : Bool) :
    (workerBuildStep instructions knowledge filename metadata snapshot
      preserve).snapshotComputed = true ∧
    ∃ a b, (workerBuildStep instructions knowledge filename metadata snapshot
      preserve).prompt = a ++ (snapshot ++ b) := by
  refine ⟨rfl,
    instructions ++ "\n\nKnowledge base:\n" ++ knowledge ++ "\n\nFilename: " ++
      baseName filename ++ "\nMetadata: " ++ metadata ++
      "\nExisting folder structure: ",
    "\n\nConstraints:\n- Respond only with a folder path.\n- " ++
      (if preserve then "Do not suggest new folders. Only pick from existing ones."
       else "You may suggest new folders if appropriate."), ?_⟩
  simp only [workerBuildStep, String.append_assoc]

/-- Counterexample for C10: the empty extensions entry does cause a
file to be ignored — a base name with no dot yields the extension `""`,
which equals the lower-cased empty entry (the second conjunct pins the
ignoring on that entry alone). -/
theorem isIgnored_empty_extension_entry :
    isIgnored "entropy/noext" ⟨false, [], [""], []⟩ = true ∧
    isIgnored "entropy/noext" ⟨false, [], [], []⟩ = false := by
  decide

/-- C10 amended: the extension `isIgnored` compares against the entries
is always empty or dot-initial, so a *nonempty* entry that does not
begin with a dot (such as `"log"`) matches no file; only the empty
entry can match (files whose base name has no dot). -/
theorem extension_entries_dot_shape (path : String) (cfg : IgnoreConfig) :
    (lowerStr (extName (baseName path)) = "" ∨
      ∃ cs, lowerStr (extName (baseName path)) = String.mk ('.' :: cs)) ∧
    (∀ e, e ∈ cfg.extensions → e ≠ "" → hasPre "." e = false →
      lowerStr e ≠ lowerStr (extName (baseName path))) := by
  constructor
  · rcases extName_shape (baseName path) with h | ⟨cs, h⟩
    · left
      rw [h]
      rfl
    · right
      refine ⟨cs.map lowerChar, ?_⟩
      rw [h]
      show String.mk (('.' :: cs).map lowerChar) = _
      rw [List.map_cons, lowerChar_dot]
  · intro e _ hne hdot heq
    have htl : e.toList ≠ [] := by
      intro h0
      apply hne
      cases e with
      | mk data =>
        simp only [String.toList] at h0
        rw [h0]
    obtain ⟨c, cs, hl⟩ := List.exists_cons_of_ne_nil htl
    have hc : c ≠ '.' := by
      intro hcc
      rw [hcc] at hl
      unfold hasPre at hdot
      rw [hl] at hdot
      simp [startsWith] at hdot
    have hle : lowerStr e = String.mk (lowerChar c :: cs.map lowerChar) := by
      unfold lowerStr
      rw [hl]
      rfl
    rcases extName_shape (baseName path) with h | ⟨ds, h⟩
    · rw [h, hle] at heq
      have h2 : lowerChar c :: cs.map lowerChar = ([] : List Char) :=
        congrArg String.data heq
      exact List.noConfusion h2
    · rw [h, hle] at heq
      have hds : lowerStr (String.mk ('.' :: ds)) = String.mk ('.' :: ds.map lowerChar) := by
        unfold lowerStr
        show String.mk (('.' :: ds).map lowerChar) = _
        rw [List.map_cons, lowerChar_dot]
      rw [hds] at heq
      injection heq with hdata
      injection hdata with hhead _
      exact lowerChar_ne_dot hc hhead

/-- Witness for C10's amended statement: the dotless entry `"log"`
matches nothing — in particular not `a.txt`. -/
theorem extension_entries_dot_shape_witness :
    lowerStr "log" ≠ lowerStr (extName (baseName "entropy/a.txt")) :=
  (extension_entries_dot_shape "entropy/a.txt" ⟨false, [], ["log"], []⟩).2
    "log" (by decide) (by decide) (by decide)

end Entropy
